import Mathlib

/-!
A verification development for the `jsonschema` Go package and its `golang`
generator backend.

The Go sources are shallowly embedded:

* `Schema` mirrors the Go struct `jsonschema.Schema` (string fields plus the
  recursive `Definitions`/`Properties`/`Items` children).  Go maps are
  embedded as association lists; the places where Go's randomized map
  iteration order matters are modelled relationally (see `goSortByNameSpec`).
* Go `error` results are embedded as `Except GenErr`; `GenErr.goError msg`
  carries the exact message the Go code builds with `fmt.Errorf`/`errors.New`,
  `GenErr.panic` marks a run-time nil-pointer dereference (the Go function
  crashes instead of returning), and `GenErr.outOfFuel` marks exhaustion of
  the explicit fuel that replaces Go's unbounded recursion in `NewInstance`.
* `go/format.Source` (gofmt) is applied by every generator before returning;
  formatting is an out-of-scope collaborator per the specification, so it is
  modelled as the identity on the generated text.
* `strings.Title` and string comparison are modelled for ASCII data
  (`goIsSeparator`, `goToTitle`, `strListLt`): Go compares strings byte-wise,
  which on ASCII coincides with the char-code order used here.
-/

namespace Jsonschema

/-! ## String helpers (models of the Go standard library functions used) -/

/-- Byte-wise strict order on strings as Go's `<` computes it, on char data. -/
def strListLt : List Char → List Char → Bool
  | [], [] => false
  | [], _ :: _ => true
  | _ :: _, [] => false
  | a :: as, b :: bs =>
    a.toNat < b.toNat || (a.toNat = b.toNat && strListLt as bs)

/-- Go `a < b` on strings. -/
def goStrLt (a b : String) : Bool := strListLt a.data b.data

/-- Go `a <= b` on strings (used by `sort.Strings`). -/
def goStrLe (a b : String) : Bool := !(goStrLt b a)

/-- Splits a char list at a separator char, as Go's `strings.Split` does for
a one-char separator: `split '/' "a/b"` gives `["a", "b"]`. -/
def splitChar (sep : Char) : List Char → List (List Char)
  | [] => [[]]
  | c :: cs =>
    let r := splitChar sep cs
    if c = sep then [] :: r
    else
      match r with
      | [] => [[c]]
      | p :: ps => (c :: p) :: ps

/-- Go `strings.Split(s, sep)` for a one-char separator string. -/
def goSplit (s : String) (sep : Char) : List String :=
  (splitChar sep s.data).map String.mk

/-- Whether `pat` occurs at the head of `l`. -/
def beginsWith : List Char → List Char → Bool
  | [], _ => true
  | _ :: _, [] => false
  | p :: ps, c :: cs => p = c && beginsWith ps cs

/-- Replaces the first occurrence of `pat` in `l` by nothing, as Go's
`strings.Replace(s, pat, "", 1)` does for the empty replacement. -/
def dropFirstOccurrence (pat : List Char) : List Char → List Char
  | [] => []
  | c :: cs =>
    if beginsWith pat (c :: cs) then (c :: cs).drop pat.length
    else c :: dropFirstOccurrence pat cs

/-- Go `strings.Replace(s, pat, "", 1)` (with an empty replacement a missing
pattern, like an empty pattern, leaves the string unchanged). -/
def goReplaceFirst (s pat : String) : String :=
  String.mk (dropFirstOccurrence pat.data s.data)

/-- The separator test of Go's `strings.Title` word boundary (`isSeparator` in
the `strings` package), restricted to ASCII: ASCII alphanumerics and the
underscore are not separators, every other ASCII char is; non-ASCII chars are
conservatively treated as non-separators (all data in this development is
ASCII). -/
def goIsSeparator (c : Char) : Bool :=
  if c.toNat ≤ 0x7F then
    !((48 ≤ c.toNat && c.toNat ≤ 57) ||
      (97 ≤ c.toNat && c.toNat ≤ 122) ||
      (65 ≤ c.toNat && c.toNat ≤ 90) ||
      c = '_')
  else false

/-- `unicode.ToTitle` restricted to ASCII: lower-case letters are mapped to
upper case, everything else is unchanged. -/
def goToTitle (c : Char) : Char :=
  if 97 ≤ c.toNat ∧ c.toNat ≤ 122 then Char.ofNat (c.toNat - 32) else c

/-- The rune loop of Go's `strings.Title`: a char following a separator is
title-cased; `prev` always becomes the original char just read. -/
def titleLoop : Char → List Char → List Char
  | _, [] => []
  | prev, c :: cs =>
    (if goIsSeparator prev then goToTitle c else c) :: titleLoop c cs

/-- Go `strings.Title(s)` (ASCII model); the initial `prev` is a space, which
is a separator, so the first char of the string is always title-cased. -/
def stringsTitle (s : String) : String :=
  String.mk (titleLoop ' ' s.data)

/-! ## The schema model (Go struct `Schema`) -/

/-- One node of a schema document tree; mirrors the Go struct `Schema` with
its JSON-decoded fields.  `definitions` and `properties` are Go maps from
name to child embedded as association lists, `items` is the Go `*Schema`
(nil embedded as `Option.none`), `ref` is the `$ref` string and `required`
the `required` list. -/
inductive Schema where
  | mk (title description pointer pointerName name jsonName type_ ref : String)
       (definitions properties : List (String × Schema))
       (items : Option Schema)
       (required : List String) : Schema

def Schema.title : Schema → String
  | .mk t _ _ _ _ _ _ _ _ _ _ _ => t

def Schema.description : Schema → String
  | .mk _ d _ _ _ _ _ _ _ _ _ _ => d

def Schema.pointer : Schema → String
  | .mk _ _ p _ _ _ _ _ _ _ _ _ => p

def Schema.pointerName : Schema → String
  | .mk _ _ _ pn _ _ _ _ _ _ _ _ => pn

def Schema.name : Schema → String
  | .mk _ _ _ _ n _ _ _ _ _ _ _ => n

def Schema.jsonName : Schema → String
  | .mk _ _ _ _ _ j _ _ _ _ _ _ => j

def Schema.type_ : Schema → String
  | .mk _ _ _ _ _ _ t _ _ _ _ _ => t

def Schema.ref : Schema → String
  | .mk _ _ _ _ _ _ _ r _ _ _ _ => r

def Schema.definitions : Schema → List (String × Schema)
  | .mk _ _ _ _ _ _ _ _ d _ _ _ => d

def Schema.properties : Schema → List (String × Schema)
  | .mk _ _ _ _ _ _ _ _ _ p _ _ => p

def Schema.items : Schema → Option Schema
  | .mk _ _ _ _ _ _ _ _ _ _ i _ => i

def Schema.required : Schema → List String
  | .mk _ _ _ _ _ _ _ _ _ _ _ r => r

/-- The Go `Index` map from JSON pointer to `*Schema`, embedded as an
association list in insertion order. -/
abbrev Index := List (String × Schema)

/-- Go map lookup `(*idx)[k]`; a missing key yields Go's nil pointer,
embedded as `Option.none`.  (Keys inserted by `parse` are distinct in all
non-pathological documents, so first-match lookup agrees with the map.) -/
def idxFind (idx : Index) (k : String) : Option Schema :=
  match idx with
  | [] => Option.none
  | (k', s) :: rest => if k' = k then Option.some s else idxFind rest k

/-! ## Naming (`goNameFromStrings`, `goNameFromPointer`, `jsonNameFromPointer`) -/

/-- The regexp replacement `regexp.MustCompile("\x7b|\x7d|-|_").ReplaceAllString(p, "")`:
removes every brace, hyphen and underscore character. -/
def stripNameChars (s : String) : String :=
  String.mk (s.data.filter fun c =>
    !(c.toNat = 123 || c.toNat = 125 || c = '-' || c = '_'))

/-- Go `goNameFromStrings` (also `nameFromStrings`): per part, strip the
brace/hyphen/underscore chars, then switch on the exact stripped string for
the `id`/`url`/`api` overrides, defaulting to `strings.Title`. -/
def nameFromStrings (parts : List String) : String :=
  parts.foldl
    (fun name p =>
      let c := stripNameChars p
      name ++
        (if c = "id" then "ID"
         else if c = "url" then "URL"
         else if c = "api" then "API"
         else stringsTitle c))
    ""

/-- Go `goNameFromPointer`: the name derived from the last `/`-segment. -/
def nameFromPointer (pointer : String) : String :=
  nameFromStrings [(goSplit pointer '/').getLastD ""]

/-- Go `jsonNameFromPointer`: the raw last `/`-segment. -/
def jsonNameFromPointer (pointer : String) : String :=
  (goSplit pointer '/').getLastD ""

/-! ## The parser (`(s *Schema) parse`, `Parse`)

Go's `parse` walks the tree, first recursing into `Definitions`,
`Properties` and `Items` (so children are inserted before the current
node), then — except at the document root `"#"` — forces `Type` to `"ref"`
when `Ref` is non-empty, fills the derived fields and inserts itself.
`parseS` returns the updated node together with the index entries the call
inserted, in insertion order; JSON deserialization (`json.Unmarshal`) is
the out-of-scope entry step of Go's `Parse` and is not modelled. -/

mutual

def parseS (s : Schema) (pointer : String) : Schema × List (String × Schema) :=
  match s with
  | .mk ti de po pn na jn ty rf defs props items req =>
    let pd := parseList defs (pointer ++ "/definitions/")
    let pp := parseList props (pointer ++ "/properties/")
    let pit : Option Schema × List (String × Schema) :=
      match items with
      | Option.none => (Option.none, [])
      | Option.some it =>
        let r := parseS it (pointer ++ "/items")
        (Option.some r.1, r.2)
    if pointer = "#" then
      (Schema.mk ti de po pn na jn ty rf pd.1 pp.1 pit.1 req,
       pd.2 ++ pp.2 ++ pit.2)
    else
      let ty2 := if rf ≠ "" then "ref" else ty
      let s2 := Schema.mk ti de pointer
        (goReplaceFirst pointer "#/definitions/")
        (nameFromPointer pointer) (jsonNameFromPointer pointer)
        ty2 rf pd.1 pp.1 pit.1 req
      (s2, pd.2 ++ pp.2 ++ pit.2 ++ [(pointer, s2)])

def parseList (l : List (String × Schema)) (pre : String) :
    List (String × Schema) × List (String × Schema) :=
  match l with
  | [] => ([], [])
  | (nm, c) :: rest =>
    let r := parseS c (pre ++ nm)
    let rr := parseList rest pre
    ((nm, r.1) :: rr.1, r.2 ++ rr.2)

end

/-- Go `Parse` after `json.Unmarshal` succeeded: walk from the root `"#"`
and collect the index. -/
def Parse (s : Schema) : Index := (parseS s "#").2

/-! ## Errors and reference resolution -/

/-- Result outcomes of the embedded Go functions.  `goError msg` is a Go
`error` with exactly the message `msg`; `panic` marks a nil-pointer
dereference (the Go code crashes, it does not return); `outOfFuel` marks
exhaustion of the fuel that stands in for Go's unbounded recursion. -/
inductive GenErr where
  | goError (msg : String)
  | panic
  | outOfFuel
deriving DecidableEq

/-- The message text of `fmt.Errorf("jsonschema: %v does not exist in index", ptr)`,
shared by reference resolution and the required-property check. -/
def doesNotExistMsg (ptr : String) : String :=
  "jsonschema: " ++ ptr ++ " does not exist in index"

/-- Go `resolvRefToSchema` (and the identical `resolveRefToSchema`): a
non-`ref` schema resolves to itself; a `ref` schema resolves by one index
lookup of its target, failing with the does-not-exist error when the target
is not a key. -/
def resolvRefToSchema (s : Schema) (idx : Index) : Except GenErr Schema :=
  if s.type_ ≠ "ref" then .ok s
  else
    match idxFind idx s.ref with
    | Option.none => .error (.goError (doesNotExistMsg s.ref))
    | Option.some r => .ok r

/-! ## Instance synthesis (`NewInstance`) -/

/-- A Go `interface{}` JSON value produced by `NewInstance`.  Go's untyped
nil (returned for `null` and for unrecognized kinds) is represented by
`Option.none` around `GoValue`, so object entries and array elements carry
`Option GoValue`.  The float literal `3.14` is embedded as the rational
`3.14`. -/
inductive GoValue where
  | str (s : String)
  | int (n : Int)
  | num (q : Rat)
  | bool (b : Bool)
  | arr (elems : List (Option GoValue))
  | obj (entries : List (String × Option GoValue))

/-- The `Properties` loop of `NewInstance`'s `object` case: synthesize each
property with `f`, propagating the first error; the Go code stores the
results in a map keyed by property name, embedded here as one entry per
property in `Properties` order. -/
def instListWith (f : Schema → Except GenErr (Option GoValue)) :
    List (String × Schema) → Except GenErr (List (String × Option GoValue))
  | [] => .ok []
  | (nm, sch) :: rest => do
    let d ← f sch
    let tail ← instListWith f rest
    .ok ((nm, d) :: tail)

/-- Go `(s *Schema) NewInstance(idx)`.  The Go recursion is unbounded (a
reference cycle overflows the stack); here each nested call consumes one
unit of fuel, and running out of fuel is reported as `GenErr.outOfFuel`.
An `array` schema without `Items` nil-dereferences in Go (`panic`).
The final `return nil, nil` for an unrecognized `Type` yields `.ok none`,
exactly like the `null` case. -/
def NewInstance : Nat → Schema → Index → Except GenErr (Option GoValue)
  | 0, _, _ => .error .outOfFuel
  | fuel + 1, s, idx =>
    let f := fun sch => NewInstance fuel sch idx
    match s.type_ with
    | "ref" => do
      let sch ← resolvRefToSchema s idx
      f sch
    | "object" => do
      let entries ← instListWith f s.properties
      .ok (Option.some (.obj entries))
    | "array" =>
      match s.items with
      | Option.none => .error .panic
      | Option.some it => do
        let d ← f it
        .ok (Option.some (.arr [d]))
    | "string" => .ok (Option.some (.str "string"))
    | "integer" => .ok (Option.some (.int 42))
    | "number" => .ok (Option.some (.num (3.14 : Rat)))
    | "boolean" => .ok (Option.some (.bool true))
    | "null" => .ok Option.none
    | _ => .ok Option.none

/-! ## The Go type/validation generator

The generator exists twice in the repository (in package `jsonschema` and in
package `golang`) with identical bodies; one embedding covers both.  Every
generator function pipes its buffer through `go/format.Source` before
returning; formatting is an out-of-scope collaborator, modelled as the
identity on the text (the embedding therefore speaks about the pre-gofmt
text, which gofmt only re-indents). -/

/-- Insertion of one string into an ascending run, byte-wise order. -/
def insertSorted (x : String) : List String → List String
  | [] => [x]
  | y :: ys => if goStrLe x y then x :: y :: ys else y :: insertSorted x ys

/-- Go `sort.Strings` as used by `sortedMapKeys`: the ascending reordering
of the key list.  (For the distinct keys of a map every sorting algorithm
produces the same list, so a concrete insertion sort is a faithful model.) -/
def sortStrings : List String → List String
  | [] => []
  | x :: xs => insertSorted x (sortStrings xs)

/-- Go `sortedMapKeys(&m)`: the keys of the map, sorted alphabetically. -/
def sortedMapKeys (m : List (String × Schema)) : List String :=
  sortStrings (m.map Prod.fst)

/-- Go `(s *Schema) generateGoRef(idx)`: the inline field line for a
property schema.  A `ref` property reads the target straight out of the
index without a nil check — a dangling target nil-dereferences (`panic`).
Kinds outside the switch produce the empty string. -/
def generateGoRef (s : Schema) (idx : Index) : Except GenErr String :=
  match s.type_ with
  | "string" =>
    .ok (s.name ++ " *string `json:\"" ++ s.jsonName ++ ",omitempty\"`")
  | "integer" =>
    .ok (s.name ++ " *int `json:\"" ++ s.jsonName ++ ",omitempty\"`")
  | "number" =>
    .ok (s.name ++ " *float64 `json:\"" ++ s.jsonName ++ ",omitempty\"`")
  | "boolean" =>
    .ok (s.name ++ " *bool `json:\"" ++ s.jsonName ++ ",omitempty\"`")
  | "object" =>
    .ok (s.name ++ " *" ++ s.name ++ " `json:\"" ++ s.jsonName ++ ",omitempty\"`")
  | "array" =>
    .ok (s.name ++ " *" ++ s.name ++ " `json:\"" ++ s.jsonName ++ ",omitempty\"`")
  | "ref" =>
    match idxFind idx s.ref with
    | Option.none => .error .panic
    | Option.some r =>
      .ok (s.name ++ " *" ++ r.name ++ " `json:\"" ++ r.jsonName ++ ",omitempty\"`")
  | _ => .ok ""

/-- The field loop of `generateGoType`'s `object` case: for each sorted
property key, emit the `generateGoRef` line (skipping empty ones).  A key
missing from the map would make Go hand a nil `*Schema` to `generateGoRef`
(`panic`); keys produced by `sortedMapKeys` are always present. -/
def goTypeFieldsLoop (idx : Index) (props : List (String × Schema)) :
    List String → Except GenErr String
  | [] => .ok ""
  | k :: rest =>
    match idxFind props k with
    | Option.none => .error .panic
    | Option.some child => do
      let r ← generateGoRef child idx
      let tail ← goTypeFieldsLoop idx props rest
      .ok ((if r = "" then "" else "\t" ++ r ++ "\n") ++ tail)

/-- Go `(s *Schema) generateGoType(idx)`: a struct for an `object` schema,
a named slice alias for an `array` schema (the element type is the `Items`
node's literal `Type` string unless the resolved schema is a different node
— Go compares the two `*Schema` pointers; post-parse, node identity is
captured by the `pointer` field compared here), nothing for other kinds.
An `array` schema without `Items` nil-dereferences inside
`resolvRefToSchema` (`panic`). -/
def generateGoType (s : Schema) (idx : Index) : Except GenErr String :=
  match s.type_ with
  | "object" => do
    let fields ← goTypeFieldsLoop idx s.properties (sortedMapKeys s.properties)
    .ok ("type " ++ s.name ++ " struct \x7b\n" ++ fields ++ "\x7d\n")
  | "array" =>
    match s.items with
    | Option.none => .error .panic
    | Option.some it => do
      let p ← resolvRefToSchema it idx
      let typ := if p.pointer = it.pointer then it.type_ else p.name
      .ok ("type " ++ s.name ++ " []" ++ typ ++ "\n")
  | _ => .ok ""

/-- The text of one required-presence check emitted by
`generateRequiredValidationCheck`: field name from the property schema in
the index, message from the object's `JSONName` and the literal required
name. -/
def requiredCheckSrc (fieldName objJsonName propName : String) : String :=
  "if t." ++ fieldName ++ " == nil \x7b\n" ++
  "\treturn errors.New(\"invalid " ++ objJsonName ++ ": missing " ++
  propName ++ "\")\n" ++
  "\x7d\n"

/-- The loop of `generateRequiredValidationCheck`: for each required name,
look up `<pointer>/properties/<name>`; a missing entry fails with the
does-not-exist error (discarding the buffer), otherwise the presence check
is appended. -/
def requiredChecksLoop (idx : Index) (s : Schema) :
    List String → Except GenErr String
  | [] => .ok ""
  | p :: rest =>
    let ptr := s.pointer ++ "/properties/" ++ p
    match idxFind idx ptr with
    | Option.none => .error (.goError (doesNotExistMsg ptr))
    | Option.some rs => do
      let tail ← requiredChecksLoop idx s rest
      .ok (requiredCheckSrc rs.name s.jsonName p ++ tail)

/-- Go `generateRequiredValidationCheck(idx, s)`; an empty `Required` list
returns the empty (nil) output immediately. -/
def generateRequiredValidationCheck (idx : Index) (s : Schema) :
    Except GenErr String :=
  if s.required = [] then .ok ""
  else requiredChecksLoop idx s s.required

/-- The text of one nested `Validate()` call; `colon` is the Go
`errorVarExists` marker: `":"` the first time (declaring `err`), `""`
afterwards. -/
def validateCallSrc (colon nm : String) : String :=
  "\terr " ++ colon ++ "= t." ++ nm ++ ".Validate()\n" ++
  "\tif err != nil \x7b\n" ++
  "\t\treturn err\n" ++
  "\t\x7d\n"

/-- The property loop of `generateGoTypeValidateFunc`'s `object` case: for
each sorted property key, resolve the property (one `$ref` hop) and emit a
nested `Validate()` call when the resolved kind is `object` or `array`,
threading the `errorVarExists` marker. -/
def validateCallsLoop (idx : Index) (props : List (String × Schema)) :
    List String → String → Except GenErr String
  | [], _ => .ok ""
  | k :: rest, colon =>
    match idxFind props k with
    | Option.none => .error .panic
    | Option.some child => do
      let p ← resolvRefToSchema child idx
      if p.type_ = "object" || p.type_ = "array" then do
        let tail ← validateCallsLoop idx props rest ""
        .ok (validateCallSrc colon p.name ++ tail)
      else
        validateCallsLoop idx props rest colon

/-- The element loop text of `generateGoTypeValidateFunc`'s `array` case
(emitted once when the resolved `Items` kind is `object` or `array`). -/
def arrayValidateLoopSrc : String :=
  "\tfor _, a := range *t \x7b\n" ++
  "\t\t\terr := a.Validate()\n" ++
  "\t\tif err != nil \x7b\n" ++
  "\t\t\treturn err\n" ++
  "\t\t\x7d\n" ++
  "\t\x7d\n"

/-- Go `(s *Schema) generateGoTypeValidateFunc(idx)`: the `Validate` method
for an `object` (required checks first, then nested calls in sorted
property-key order) or `array` schema; other kinds return nil output (the
header already printed to the buffer is discarded by the `default` return). -/
def generateGoTypeValidateFunc (s : Schema) (idx : Index) :
    Except GenErr String :=
  let header := "func (t *" ++ s.name ++ ") Validate() error \x7b\n"
  match s.type_ with
  | "object" => do
    let checks ← generateRequiredValidationCheck idx s
    let calls ← validateCallsLoop idx s.properties (sortedMapKeys s.properties) ":"
    .ok (header ++
      (if checks = "" then "" else "\t" ++ checks ++ "\n") ++
      calls ++
      "\treturn nil\n\x7d\n")
  | "array" =>
    match s.items with
    | Option.none => .error .panic
    | Option.some it => do
      let as_ ← resolvRefToSchema it idx
      .ok (header ++
        (if as_.type_ = "object" || as_.type_ = "array" then
          arrayValidateLoopSrc
        else "") ++
        "\treturn nil\n\x7d\n")
  | _ => .ok ""

/-! ## The deterministic-order contract of `sortedMapKeysbyName`

Go's `sortedMapKeysbyName` collects the index values by ranging over the
map (an order Go randomizes), sorts them with the unstable `sort.Sort` under
`byName.Less = a.Name < b.Name`, and returns their `Pointer` fields.  All
`sort.Sort` guarantees is an output that is a permutation of the input,
pairwise non-decreasing under `Less`; both nondeterminisms are modelled
relationally. -/

/-- What `sort.Sort(byName(input))` guarantees about the resulting slice. -/
def goSortByNameSpec (input out : List Schema) : Prop :=
  out.Perm input ∧ out.Pairwise (fun a b => goStrLe a.name b.name = true)

/-- The possible outputs of `sortedMapKeysbyName(idx)`: some map-range
order of the values, sorted by name, projected to pointers. -/
def validKeyOrder (idx : Index) (ks : List String) : Prop :=
  ∃ out, goSortByNameSpec (idx.map Prod.snd) out ∧ ks = out.map Schema.pointer

/-! ## Reachability of document nodes

`ReachPtr s p q` holds when, starting from node `s` whose pointer is `p`, a
node reachable through `definitions`, `properties` and `items` edges is
assigned pointer `q` by the parser's addressing scheme; the document root
(`"#"`) itself is not granted a pointer. -/

inductive ReachPtr : Schema → String → String → Prop where
  | self (s : Schema) (p : String) : p ≠ "#" → ReachPtr s p p
  | defn {s : Schema} {p : String} {nm : String} {c : Schema} {q : String} :
      (nm, c) ∈ s.definitions → ReachPtr c (p ++ "/definitions/" ++ nm) q →
      ReachPtr s p q
  | prop {s : Schema} {p : String} {nm : String} {c : Schema} {q : String} :
      (nm, c) ∈ s.properties → ReachPtr c (p ++ "/properties/" ++ nm) q →
      ReachPtr s p q
  | item {s : Schema} {p : String} {c : Schema} {q : String} :
      s.items = Option.some c → ReachPtr c (p ++ "/items") q →
      ReachPtr s p q

/-! ## Concrete documents used as test inputs

These model the JSON documents of the repository's fixtures after
`json.Unmarshal` (absent members decode to zero values: empty strings, nil
maps/slices embedded as `[]`, nil `Items` as `Option.none`). -/

/-- `{"type": "string"}` -/
def strNode : Schema :=
  .mk "" "" "" "" "" "" "string" "" [] [] Option.none []

/-- The raw `user` definition subtree:
`{"type":"object","required":["id"],
"properties":{"id":{"type":"string"},"name":{"type":"string"}}}` -/
def userDefRaw : Schema :=
  .mk "" "" "" "" "" "" "object" ""
    [] [("id", strNode), ("name", strNode)] Option.none ["id"]

/-- The `user` document of the specification:
`{"definitions":{"user": <userDefRaw>}}` -/
def userDocTree : Schema :=
  .mk "" "" "" "" "" "" "" "" [("user", userDefRaw)] [] Option.none []

/-- The parsed `user` node, as stored at `#/definitions/user`. -/
def userParsed : Schema :=
  (parseS userDefRaw "#/definitions/user").1

/-- A `user` document whose `required` names a property that is never
defined: `required: ["nope"]` with only `id` among the properties. -/
def badRequiredDocTree : Schema :=
  .mk "" "" "" "" "" "" "" ""
    [("user", .mk "" "" "" "" "" "" "object" ""
       [] [("id", strNode)] Option.none ["nope"])]
    [] Option.none []

/-- The parsed bad-required `user` node. -/
def badRequiredParsed : Schema :=
  (parseS (.mk "" "" "" "" "" "" "object" ""
     [] [("id", strNode)] Option.none ["nope"])
   "#/definitions/user").1

/-- The `categories` document of the specification: a `movie` object whose
`categories` property is `{"$ref": "#/definitions/categories"}`, alongside
the definition `categories: {"type":"array","items":{"type":"string"}}`. -/
def catDocTree : Schema :=
  .mk "" "" "" "" "" "" "" ""
    [("categories", .mk "" "" "" "" "" "" "array" ""
        [] [] (Option.some strNode) []),
     ("movie", .mk "" "" "" "" "" "" "object" ""
        [] [("categories", .mk "" "" "" "" "" "" "" "#/definitions/categories"
              [] [] Option.none [])] Option.none [])]
    [] Option.none []

/-- The parsed reference-kind property node at
`#/definitions/movie/properties/categories`. -/
def catPropParsed : Schema :=
  (parseS (.mk "" "" "" "" "" "" "" "#/definitions/categories"
     [] [] Option.none [])
   "#/definitions/movie/properties/categories").1

/-- The parsed array definition node at `#/definitions/categories`. -/
def catDefParsed : Schema :=
  (parseS (.mk "" "" "" "" "" "" "array" "" [] [] (Option.some strNode) [])
   "#/definitions/categories").1

/-- The array-of-inline-objects fixture (`TestSchemaWithArrayOfObjects`):
`movies` is an array whose `items` is an inline object. -/
def arrayDocTree : Schema :=
  .mk "" "" "" "" "" "" "" ""
    [("movies", .mk "" "" "" "" "" "" "array" ""
        [] []
        (Option.some (.mk "" "" "" "" "" "" "object" ""
           [] [("id", strNode), ("name", strNode)] Option.none []))
        [])]
    [] Option.none []

/-- The parsed `movies` array node. -/
def moviesParsed : Schema :=
  (parseS (.mk "" "" "" "" "" "" "array" ""
     [] []
     (Option.some (.mk "" "" "" "" "" "" "object" ""
        [] [("id", strNode), ("name", strNode)] Option.none []))
     [])
   "#/definitions/movies").1

/-- The parsed inline object items node at `#/definitions/movies/items`. -/
def moviesItemsParsed : Schema :=
  (parseS (.mk "" "" "" "" "" "" "object" ""
     [] [("id", strNode), ("name", strNode)] Option.none [])
   "#/definitions/movies/items").1

/-- A reference node whose target is not in any index. -/
def danglingRefNode : Schema :=
  .mk "" "" "#/definitions/x" "" "X" "x" "ref" "#/definitions/missing"
    [] [] Option.none []

/-- A node with a `Type` outside every switch of the code. -/
def unknownKindNode : Schema :=
  .mk "" "" "#/definitions/u" "" "U" "u" "frobnicate" "" [] [] Option.none []

/-- Concatenation of a list of text fragments in order. -/
def strConcat : List String → String
  | [] => ""
  | x :: xs => x ++ strConcat xs

/-- The `roles` document: `roles` is an array whose `items` is
`{"$ref": "#/definitions/role"}`, with `role` an object definition. -/
def rolesDocTree : Schema :=
  .mk "" "" "" "" "" "" "" ""
    [("role", .mk "" "" "" "" "" "" "object" ""
        [] [("name", strNode)] Option.none ["name"]),
     ("roles", .mk "" "" "" "" "" "" "array" ""
        [] []
        (Option.some (.mk "" "" "" "" "" "" "" "#/definitions/role"
           [] [] Option.none []))
        [])]
    [] Option.none []

/-- The parsed `roles` array node. -/
def rolesParsed : Schema :=
  (parseS (.mk "" "" "" "" "" "" "array" ""
     [] []
     (Option.some (.mk "" "" "" "" "" "" "" "#/definitions/role"
        [] [] Option.none []))
     [])
   "#/definitions/roles").1

/-- The parsed reference node at `#/definitions/roles/items`. -/
def rolesItemsParsed : Schema :=
  (parseS (.mk "" "" "" "" "" "" "" "#/definitions/role"
     [] [] Option.none [])
   "#/definitions/roles/items").1

/-- The parsed `role` object node. -/
def roleParsed : Schema :=
  (parseS (.mk "" "" "" "" "" "" "object" ""
     [] [("name", strNode)] Option.none ["name"])
   "#/definitions/role").1

/-- A node named `Same` at pointer `#/definitions/a`. -/
def sameA : Schema :=
  Schema.mk "" "" "#/definitions/a" "" "Same" "" "" "" [] [] Option.none []

/-- A node named `Same` at pointer `#/definitions/b`. -/
def sameB : Schema :=
  Schema.mk "" "" "#/definitions/b" "" "Same" "" "" "" [] [] Option.none []

/-- A node named `Alpha` at pointer `#/definitions/a`. -/
def alphaNode : Schema :=
  Schema.mk "" "" "#/definitions/a" "" "Alpha" "" "" "" [] [] Option.none []

/-- A node named `Beta` at pointer `#/definitions/b`. -/
def betaNode : Schema :=
  Schema.mk "" "" "#/definitions/b" "" "Beta" "" "" "" [] [] Option.none []

/-! ## Helper lemmas -/

/-- `Except` bind on a success is the continuation. -/
theorem exc_bind_ok {α β : Type} (a : α) (f : α → Except GenErr β) :
    (Except.ok a >>= f) = f a := rfl

/-- `Except` bind on an error short-circuits. -/
theorem exc_bind_err {α β : Type} (e : GenErr) (f : α → Except GenErr β) :
    ((Except.error e : Except GenErr α) >>= f) = Except.error e := rfl

/-- A successful `instListWith` run pairs every input property with exactly
one output entry: same name, value synthesized by `f`. -/
theorem instListWith_ok (f : Schema → Except GenErr (Option GoValue)) :
    ∀ (l : List (String × Schema)) (es : List (String × Option GoValue)),
      instListWith f l = .ok es →
      List.Forall₂ (fun pr en => pr.1 = en.1 ∧ f pr.2 = .ok en.2) l es := by
  intro l
  induction l with
  | nil =>
    intro es h
    simp only [instListWith] at h
    cases h
    exact List.Forall₂.nil
  | cons hd tl ih =>
    intro es h
    obtain ⟨nm, sch⟩ := hd
    simp only [instListWith] at h
    cases hf : f sch with
    | error e =>
      rw [hf, exc_bind_err] at h
      exact Except.noConfusion h
    | ok d =>
      rw [hf, exc_bind_ok] at h
      cases ht : instListWith f tl with
      | error e =>
        rw [ht, exc_bind_err] at h
        exact Except.noConfusion h
      | ok tail =>
        rw [ht, exc_bind_ok] at h
        cases h
        exact List.Forall₂.cons ⟨rfl, hf⟩ (ih tail ht)

/-- `Forall₂` with a name-preserving relation gives equal name lists. -/
theorem forall2_fst_eq
    {l : List (String × Schema)} {es : List (String × Option GoValue)}
    {R : String × Schema → String × Option GoValue → Prop}
    (hR : ∀ pr en, R pr en → pr.1 = en.1)
    (h : List.Forall₂ R l es) : es.map Prod.fst = l.map Prod.fst := by
  induction h with
  | nil => rfl
  | cons hab _ ih => simp [ih, hR _ _ hab]

/-! ## Claims C10, C8, C6, C3 -/

/-- C10: `NewInstance` on a node whose `Type` is none of
`ref`/`object`/`array`/`string`/`integer`/`number`/`boolean`/`null` returns
the Go nil value with a nil error: the unrecognized kind is silently an
absent value, never an error. -/
theorem C10_new_instance_unknown_kind (fuel : Nat) (s : Schema) (idx : Index)
    (h : s.type_ ∉ (["ref", "object", "array", "string", "integer", "number",
        "boolean", "null"] : List String)) :
    NewInstance (fuel + 1) s idx = .ok Option.none := by
  simp only [NewInstance]
  split <;> simp_all

/-- Witness for C10 at a concrete `frobnicate`-kind node. -/
theorem C10_witness :
    NewInstance 1 unknownKindNode [] = .ok Option.none :=
  C10_new_instance_unknown_kind 0 unknownKindNode [] (by decide)

/-- C8: synthesis of an `object` node yields exactly one entry per property
(same names, in `Properties` order), each synthesized recursively; the other
kinds follow the table: a `ref` synthesizes the resolved node, an `array` a
one-element sequence of the `Items` synthesis, `string`/`integer`/`number`/
`boolean` the literals `"string"`/`42`/`3.14`/`true`, and `null` the absent
value. -/
theorem C8_synthesize (fuel : Nat) (idx : Index) :
    (∀ s v, s.type_ = "object" → NewInstance (fuel + 1) s idx = .ok v →
      ∃ entries, v = Option.some (GoValue.obj entries) ∧
        entries.map Prod.fst = s.properties.map Prod.fst ∧
        List.Forall₂ (fun pr en => pr.1 = en.1 ∧
          NewInstance fuel pr.2 idx = .ok en.2) s.properties entries)
  ∧ (∀ s r, s.type_ = "ref" → resolvRefToSchema s idx = .ok r →
      NewInstance (fuel + 1) s idx = NewInstance fuel r idx)
  ∧ (∀ s it d, s.type_ = "array" → s.items = Option.some it →
      NewInstance fuel it idx = .ok d →
      NewInstance (fuel + 1) s idx = .ok (Option.some (GoValue.arr [d])))
  ∧ (∀ s, s.type_ = "string" →
      NewInstance (fuel + 1) s idx = .ok (Option.some (GoValue.str "string")))
  ∧ (∀ s, s.type_ = "integer" →
      NewInstance (fuel + 1) s idx = .ok (Option.some (GoValue.int 42)))
  ∧ (∀ s, s.type_ = "number" →
      NewInstance (fuel + 1) s idx = .ok (Option.some (GoValue.num (3.14 : Rat))))
  ∧ (∀ s, s.type_ = "boolean" →
      NewInstance (fuel + 1) s idx = .ok (Option.some (GoValue.bool true)))
  ∧ (∀ s, s.type_ = "null" →
      NewInstance (fuel + 1) s idx = .ok Option.none) := by
  refine ⟨?_, ?_, ?_, ?_, ?_, ?_, ?_, ?_⟩
  · intro s v hty h
    simp only [NewInstance, hty] at h
    cases hl : instListWith (fun sch => NewInstance fuel sch idx) s.properties with
    | error e =>
      rw [hl, exc_bind_err] at h
      exact Except.noConfusion h
    | ok entries =>
      rw [hl, exc_bind_ok] at h
      cases h
      have hfa := instListWith_ok _ _ _ hl
      exact ⟨entries, rfl, forall2_fst_eq (fun pr en hpe => hpe.1) hfa, hfa⟩
  · intro s r hty hres
    simp only [NewInstance, hty, hres, exc_bind_ok]
  · intro s it d hty hit hd
    simp only [NewInstance, hty, hit, hd, exc_bind_ok]
  · intro s hty; simp only [NewInstance, hty]
  · intro s hty; simp only [NewInstance, hty]
  · intro s hty; simp only [NewInstance, hty]
  · intro s hty; simp only [NewInstance, hty]
  · intro s hty; simp only [NewInstance, hty]

/-- Witness for C8 at the parsed `user` fixture node. -/
theorem C8_witness :
    userParsed.type_ = "object" ∧
    (∃ entries,
      (Option.some (GoValue.obj
        [("id", Option.some (GoValue.str "string")),
         ("name", Option.some (GoValue.str "string"))]) : Option GoValue) =
        Option.some (GoValue.obj entries) ∧
      entries.map Prod.fst = userParsed.properties.map Prod.fst ∧
      List.Forall₂ (fun pr en => pr.1 = en.1 ∧
        NewInstance 1 pr.2 (Parse userDocTree) = .ok en.2)
        userParsed.properties entries) :=
  ⟨rfl, (C8_synthesize 1 (Parse userDocTree)).1 userParsed _ rfl rfl⟩

/-- C6: the field generated for a reference-kind property resolves exactly
one index hop and takes the emitted field type and JSON tag from the
resolved node's `Name` and `JSONName`. -/
theorem C6_ref_field (s : Schema) (idx : Index) (r : Schema)
    (href : s.type_ = "ref") (hfind : idxFind idx s.ref = Option.some r) :
    generateGoRef s idx =
      .ok (s.name ++ " *" ++ r.name ++ " `json:\"" ++ r.jsonName ++
        ",omitempty\"`") := by
  simp only [generateGoRef, href, hfind]

/-- Witness for C6 at the `categories` fixture of the specification: the
property field uses the array definition's `Name` and `JSONName`. -/
theorem C6_witness :
    catPropParsed.type_ = "ref" ∧
    idxFind (Parse catDocTree) catPropParsed.ref = Option.some catDefParsed ∧
    generateGoRef catPropParsed (Parse catDocTree) =
      .ok ("Categories *Categories `json:\"categories,omitempty\"`") :=
  ⟨rfl, rfl,
    C6_ref_field catPropParsed (Parse catDocTree) catDefParsed rfl rfl⟩

/-- C3 (amended): a reference whose target is not an index key fails with
the does-not-exist Go error naming the target in every consumer that goes
through `resolvRefToSchema` — instance synthesis, array type generation,
and validate-function generation — but field generation for a
reference-kind property (`generateGoRef`) dereferences the missing entry
without a nil check and crashes instead of returning an error result. -/
theorem C3_unresolved_reference (s : Schema) (idx : Index)
    (href : s.type_ = "ref") (hmiss : idxFind idx s.ref = Option.none) :
    resolvRefToSchema s idx = .error (.goError (doesNotExistMsg s.ref))
  ∧ (∀ fuel, NewInstance (fuel + 1) s idx =
      .error (.goError (doesNotExistMsg s.ref)))
  ∧ generateGoRef s idx = .error GenErr.panic
  ∧ (∀ arr, arr.type_ = "array" → arr.items = Option.some s →
      generateGoType arr idx = .error (.goError (doesNotExistMsg s.ref)))
  ∧ (∀ arr, arr.type_ = "array" → arr.items = Option.some s →
      generateGoTypeValidateFunc arr idx =
        .error (.goError (doesNotExistMsg s.ref)))
  ∧ (∀ obj k, obj.type_ = "object" → obj.properties = [(k, s)] →
      obj.required = [] →
      generateGoTypeValidateFunc obj idx =
        .error (.goError (doesNotExistMsg s.ref))) := by
  have hres : resolvRefToSchema s idx =
      .error (.goError (doesNotExistMsg s.ref)) := by
    simp only [resolvRefToSchema, href, hmiss]
    simp
  refine ⟨hres, ?_, ?_, ?_, ?_, ?_⟩
  · intro fuel
    simp only [NewInstance, href, hres, exc_bind_err]
  · simp only [generateGoRef, href, hmiss]
  · intro arr hty hit
    simp only [generateGoType, hty, hit, hres, exc_bind_err]
  · intro arr hty hit
    simp only [generateGoTypeValidateFunc, hty, hit, hres, exc_bind_err]
  · intro obj k hty hprops hreq
    simp only [generateGoTypeValidateFunc, hty, hprops, hreq,
      generateRequiredValidationCheck, sortedMapKeys, sortStrings,
      insertSorted, List.map, validateCallsLoop, idxFind, hres,
      exc_bind_ok, exc_bind_err]
    simp [hres, exc_bind_ok, exc_bind_err]

/-- Witness for C3 (amended) at a concrete dangling reference. -/
theorem C3_witness :
    resolvRefToSchema danglingRefNode [] =
      .error (.goError (doesNotExistMsg "#/definitions/missing")) ∧
    NewInstance 1 danglingRefNode [] =
      .error (.goError (doesNotExistMsg "#/definitions/missing")) ∧
    generateGoRef danglingRefNode [] = .error GenErr.panic :=
  ⟨(C3_unresolved_reference danglingRefNode [] rfl rfl).1,
   (C3_unresolved_reference danglingRefNode [] rfl rfl).2.1 0,
   (C3_unresolved_reference danglingRefNode [] rfl rfl).2.2.1⟩

/-- Counterexample to C3 as stated: at a concrete dangling reference, the
field-generation consumer (`generateGoRef`) crashes with a nil-pointer
dereference; it does not fail with an error result naming the target. -/
theorem C3_counterexample :
    generateGoRef danglingRefNode [] = .error GenErr.panic ∧
    GenErr.panic ≠ GenErr.goError (doesNotExistMsg "#/definitions/missing") :=
  ⟨rfl, by decide⟩

/-! ## Claim C1 -/



/-- When every required name is present under `<pointer>/properties/`, the
check loop succeeds and emits the presence checks in declaration order. -/
theorem requiredChecksLoop_all_present (idx : Index) (s : Schema) :
    ∀ l : List String,
      (∀ p ∈ l, ∃ rs,
        idxFind idx (s.pointer ++ "/properties/" ++ p) = Option.some rs) →
      requiredChecksLoop idx s l = .ok (strConcat (l.map fun p =>
        match idxFind idx (s.pointer ++ "/properties/" ++ p) with
        | Option.some rs => requiredCheckSrc rs.name s.jsonName p
        | Option.none => "")) := by
  intro l
  induction l with
  | nil => intro _; rfl
  | cons p rest ih =>
    intro h
    obtain ⟨rs, hrs⟩ := h p (List.mem_cons_self p rest)
    have htail := ih fun q hq => h q (List.mem_cons_of_mem p hq)
    simp only [requiredChecksLoop, hrs, htail, exc_bind_ok, List.map,
      strConcat]

/-- When some required name is absent, the check loop fails with the
does-not-exist error for a missing name, producing no output. -/
theorem requiredChecksLoop_missing (idx : Index) (s : Schema) :
    ∀ l : List String,
      (∃ p ∈ l, idxFind idx (s.pointer ++ "/properties/" ++ p) = Option.none) →
      ∃ p ∈ l,
        idxFind idx (s.pointer ++ "/properties/" ++ p) = Option.none ∧
        requiredChecksLoop idx s l =
          .error (.goError (doesNotExistMsg
            (s.pointer ++ "/properties/" ++ p))) := by
  intro l
  induction l with
  | nil => rintro ⟨p, hp, _⟩; cases hp
  | cons p rest ih =>
    rintro ⟨q, hq, hqnone⟩
    cases hf : idxFind idx (s.pointer ++ "/properties/" ++ p) with
    | none =>
      refine ⟨p, List.mem_cons_self p rest, hf, ?_⟩
      simp only [requiredChecksLoop, hf]
    | some rs =>
      have hqrest : q ∈ rest := by
        rcases List.mem_cons.mp hq with h | h
        · subst h; rw [hf] at hqnone; exact Option.noConfusion hqnone
        · exact h
      obtain ⟨p', hp', hnone', herr'⟩ := ih ⟨q, hqrest, hqnone⟩
      refine ⟨p', List.mem_cons_of_mem p hp', hnone', ?_⟩
      simp only [requiredChecksLoop, hf, herr', exc_bind_err]

/-- C1: for an object node, each required name is looked up at
`<pointer>/properties/<name>`; when all are present the check text is the
in-order concatenation of presence checks whose message texts are exactly
`invalid <JSONName>: missing <name>` (the body of `requiredCheckSrc`), and
when one is absent, both the check generation and the node's whole
validate-function generation fail with the error naming that pointer,
producing no output. -/
theorem C1_required_validation (idx : Index) (s : Schema)
    (hobj : s.type_ = "object") :
    ((∀ p ∈ s.required, ∃ rs,
        idxFind idx (s.pointer ++ "/properties/" ++ p) = Option.some rs) →
      generateRequiredValidationCheck idx s = .ok (strConcat
        (s.required.map fun p =>
          match idxFind idx (s.pointer ++ "/properties/" ++ p) with
          | Option.some rs => requiredCheckSrc rs.name s.jsonName p
          | Option.none => "")))
  ∧ ((∃ p ∈ s.required,
        idxFind idx (s.pointer ++ "/properties/" ++ p) = Option.none) →
      ∃ p ∈ s.required,
        idxFind idx (s.pointer ++ "/properties/" ++ p) = Option.none ∧
        generateRequiredValidationCheck idx s =
          .error (.goError (doesNotExistMsg
            (s.pointer ++ "/properties/" ++ p))) ∧
        generateGoTypeValidateFunc s idx =
          .error (.goError (doesNotExistMsg
            (s.pointer ++ "/properties/" ++ p)))) := by
  constructor
  · intro h
    by_cases hreq : s.required = []
    · simp only [generateRequiredValidationCheck, hreq]
      rfl
    · simp only [generateRequiredValidationCheck, if_neg hreq]
      exact requiredChecksLoop_all_present idx s s.required h
  · rintro ⟨q, hq, hqnone⟩
    obtain ⟨p, hp, hnone, herr⟩ :=
      requiredChecksLoop_missing idx s s.required ⟨q, hq, hqnone⟩
    have hreq : s.required ≠ [] := by
      intro hnil; rw [hnil] at hp; cases hp
    have hgen : generateRequiredValidationCheck idx s =
        .error (.goError (doesNotExistMsg
          (s.pointer ++ "/properties/" ++ p))) := by
      simp only [generateRequiredValidationCheck, if_neg hreq]
      exact herr
    refine ⟨p, hp, hnone, hgen, ?_⟩
    simp only [generateGoTypeValidateFunc, hobj, hgen, exc_bind_err]

/-- Witness for C1: the `user` fixture succeeds with the exact message
text; the bad fixture (required `nope`, never defined) aborts with the
error naming `#/definitions/user/properties/nope`. -/
theorem C1_witness :
    generateRequiredValidationCheck (Parse userDocTree) userParsed =
      .ok ("if t.ID == nil \x7b\n\treturn errors.New(\"invalid user: missing id\")\n\x7d\n") ∧
    generateRequiredValidationCheck (Parse badRequiredDocTree)
        badRequiredParsed =
      .error (.goError
        (doesNotExistMsg "#/definitions/user/properties/nope")) := by
  constructor
  · have h := (C1_required_validation (Parse userDocTree) userParsed rfl).1
      (by
        intro p hp
        have hp' : p ∈ (["id"] : List String) := hp
        have hpe : p = "id" := List.mem_singleton.mp hp'
        subst hpe
        exact ⟨_, rfl⟩)
    exact h
  · obtain ⟨p, hp, _, herr, _⟩ :=
      (C1_required_validation (Parse badRequiredDocTree) badRequiredParsed
        rfl).2 ⟨"nope", by decide, rfl⟩
    have hp' : p ∈ (["nope"] : List String) := hp
    have hpe : p = "nope" := List.mem_singleton.mp hp'
    subst hpe
    exact herr

/-! ## Claim C4 -/

/-- C4 (amended): the element type of a generated array alias is the
`Items` node's literal `Type` string whenever `Items` is not a reference
(inline `object`/`array` items thus yield the words `object`/`array`, not a
node name), and the resolved node's `Name` when `Items` is a reference to a
different node; a dangling reference aborts with the does-not-exist
error. -/
theorem C4_array_type (s : Schema) (idx : Index) (it : Schema)
    (hty : s.type_ = "array") (hit : s.items = Option.some it) :
    (it.type_ ≠ "ref" →
      generateGoType s idx =
        .ok ("type " ++ s.name ++ " []" ++ it.type_ ++ "\n"))
  ∧ (∀ r, it.type_ = "ref" → idxFind idx it.ref = Option.some r →
      r.pointer ≠ it.pointer →
      generateGoType s idx =
        .ok ("type " ++ s.name ++ " []" ++ r.name ++ "\n"))
  ∧ (it.type_ = "ref" → idxFind idx it.ref = Option.none →
      generateGoType s idx =
        .error (.goError (doesNotExistMsg it.ref))) := by
  refine ⟨?_, ?_, ?_⟩
  · intro hnotref
    have hres : resolvRefToSchema it idx = .ok it := by
      simp only [resolvRefToSchema, if_pos hnotref]
    simp only [generateGoType, hty, hit, hres, exc_bind_ok]
    simp
  · intro r href hfind hne
    have hres : resolvRefToSchema it idx = .ok r := by
      simp only [resolvRefToSchema, href, hfind]
      simp
    simp only [generateGoType, hty, hit, hres, exc_bind_ok, if_neg hne]
  · intro href hmiss
    have hres : resolvRefToSchema it idx =
        .error (.goError (doesNotExistMsg it.ref)) := by
      simp only [resolvRefToSchema, href, hmiss]
      simp
    simp only [generateGoType, hty, hit, hres, exc_bind_err]

/-- Counterexample to C4 as stated: for the array-of-inline-objects fixture
the emitted element type is the literal kind string `object`, not the
items node's `Name` (`Items`). -/
theorem C4_counterexample :
    moviesItemsParsed.type_ = "object" ∧
    moviesItemsParsed.name = "Items" ∧
    generateGoType moviesParsed (Parse arrayDocTree) =
      .ok "type Movies []object\n" ∧
    ("type Movies []object\n" : String) ≠ "type Movies []Items\n" :=
  ⟨rfl, rfl, rfl, by decide⟩



/-- Witness for C4 (amended): string items give `[]string`, and
reference items give the resolved node's name (`[]Role`). -/
theorem C4_witness :
    generateGoType catDefParsed (Parse catDocTree) =
      .ok "type Categories []string\n" ∧
    generateGoType rolesParsed (Parse rolesDocTree) =
      .ok "type Roles []Role\n" := by
  constructor
  · exact (C4_array_type catDefParsed (Parse catDocTree)
      (catDefParsed.items.getD strNode) rfl rfl).1 (by decide)
  · exact (C4_array_type rolesParsed (Parse rolesDocTree)
      rolesItemsParsed rfl rfl).2.1 roleParsed rfl rfl (by decide)

/-! ## Claim C5 -/

/-- An ASCII lower-case letter never passes the separator test. -/
theorem goIsSeparator_lower (c : Char)
    (h1 : 97 ≤ c.toNat) (h2 : c.toNat ≤ 122) : goIsSeparator c = false := by
  have h127 : c.toNat ≤ 0x7F := by omega
  simp only [goIsSeparator, if_pos h127, Bool.not_eq_false', Bool.or_eq_true,
    Bool.and_eq_true, decide_eq_true_eq]
  exact Or.inl (Or.inl (Or.inr ⟨h1, h2⟩))

/-- When no char is a separator and the previous char is not one either,
`strings.Title`'s rune loop leaves the text unchanged. -/
theorem titleLoop_nosep :
    ∀ (cs : List Char) (prev : Char), goIsSeparator prev = false →
      (∀ x ∈ cs, goIsSeparator x = false) → titleLoop prev cs = cs := by
  intro cs
  induction cs with
  | nil => intro _ _ _; rfl
  | cons c cs ih =>
    intro prev hprev hall
    simp only [titleLoop, hprev]
    simp only [Bool.false_eq_true, if_false]
    rw [ih c (hall c (List.mem_cons_self c cs))
      fun x hx => hall x (List.mem_cons_of_mem c hx)]

/-- `strings.Title` on a string of lower-case ASCII letters title-cases the
first letter and leaves the rest unchanged. -/
theorem stringsTitle_lower (c : Char) (cs : List Char)
    (hc : 97 ≤ c.toNat ∧ c.toNat ≤ 122)
    (hcs : ∀ x ∈ cs, 97 ≤ x.toNat ∧ x.toNat ≤ 122) :
    stringsTitle (String.mk (c :: cs)) = String.mk (goToTitle c :: cs) := by
  simp only [stringsTitle, titleLoop]
  rw [if_pos (by decide : goIsSeparator ' ' = true)]
  rw [titleLoop_nosep cs c (goIsSeparator_lower c hc.1 hc.2)
    fun x hx => goIsSeparator_lower x (hcs x hx).1 (hcs x hx).2]

/-- Lower-case ASCII letters survive the brace/hyphen/underscore strip. -/
theorem stripNameChars_lower (c : Char) (cs : List Char)
    (hc : 97 ≤ c.toNat ∧ c.toNat ≤ 122)
    (hcs : ∀ x ∈ cs, 97 ≤ x.toNat ∧ x.toNat ≤ 122) :
    stripNameChars (String.mk (c :: cs)) = String.mk (c :: cs) := by
  simp only [stripNameChars]
  congr 1
  rw [List.filter_eq_self]
  intro a ha
  have h : 97 ≤ a.toNat ∧ a.toNat ≤ 122 := by
    rcases List.mem_cons.mp ha with h | h
    · subst h; exact hc
    · exact hcs a h
  have n1 : a.toNat ≠ 123 := by omega
  have n2 : a.toNat ≠ 125 := by omega
  have n3 : a ≠ '-' := fun he => absurd h.1 (by rw [he]; decide)
  have n4 : a ≠ '_' := fun he => absurd h.1 (by rw [he]; decide)
  simp [n1, n2, n3, n4]

/-- Appending to the empty string is the identity. -/
theorem empty_str_append (s : String) : "" ++ s = s := by
  apply String.ext
  simp [String.data_append]

/-- C5 (amended): the name for a pointer segment is computed by stripping
brace, hyphen and underscore characters and then matching the stripped
segment exactly (case-sensitively) against the overrides `id → ID`,
`url → URL`, `api → API`; every other segment has the first letter of each
word title-cased by `strings.Title`, which leaves all remaining characters
unchanged (no lower-casing).  In particular a segment of lower-case ASCII
letters becomes its capitalization, and the stripped text never retains a
brace, hyphen or underscore. -/
theorem C5_naming_rules :
    (∀ seg, stripNameChars seg = "id" → nameFromStrings [seg] = "ID")
  ∧ (∀ seg, stripNameChars seg = "url" → nameFromStrings [seg] = "URL")
  ∧ (∀ seg, stripNameChars seg = "api" → nameFromStrings [seg] = "API")
  ∧ (∀ seg c, c ∈ (stripNameChars seg).data →
      c.toNat ≠ 123 ∧ c.toNat ≠ 125 ∧ c ≠ '-' ∧ c ≠ '_')
  ∧ (∀ c cs, 97 ≤ c.toNat → c.toNat ≤ 122 →
      (∀ x ∈ cs, 97 ≤ x.toNat ∧ x.toNat ≤ 122) →
      String.mk (c :: cs) ∉ (["id", "url", "api"] : List String) →
      nameFromStrings [String.mk (c :: cs)] =
        String.mk (Char.ofNat (c.toNat - 32) :: cs)) := by
  refine ⟨?_, ?_, ?_, ?_, ?_⟩
  · intro seg h
    simp [nameFromStrings, h, empty_str_append]
  · intro seg h
    simp [nameFromStrings, h, empty_str_append]
  · intro seg h
    simp [nameFromStrings, h, empty_str_append]
  · intro seg c hc
    simp only [stripNameChars] at hc
    have := List.of_mem_filter hc
    simp only [Bool.not_eq_true', Bool.or_eq_false_iff,
      decide_eq_false_iff_not] at this
    exact ⟨this.1.1.1, this.1.1.2, this.1.2, this.2⟩
  · intro c cs h1 h2 hall hnotin
    have hstrip := stripNameChars_lower c cs ⟨h1, h2⟩ hall
    simp only [nameFromStrings, List.foldl, hstrip]
    rw [if_neg (by intro h; exact hnotin (by rw [h]; decide)),
      if_neg (by intro h; exact hnotin (by rw [h]; decide)),
      if_neg (by intro h; exact hnotin (by rw [h]; decide))]
    rw [stringsTitle_lower c cs ⟨h1, h2⟩ hall]
    rw [empty_str_append]
    simp only [goToTitle, if_pos (by omega : 97 ≤ c.toNat ∧ c.toNat ≤ 122)]

/-- Witness for C5 (amended): `i-d` strips to `id` and yields `ID`;
`name` becomes `Name`. -/
theorem C5_witness :
    nameFromStrings ["i-d"] = "ID" ∧
    nameFromStrings [String.mk ['n', 'a', 'm', 'e']] =
      String.mk (Char.ofNat ('n'.toNat - 32) :: ['a', 'm', 'e']) :=
  ⟨C5_naming_rules.1 "i-d" (by decide),
   C5_naming_rules.2.2.2.2 'n' ['a', 'm', 'e'] (by decide) (by decide)
     (by decide) (by decide)⟩

/-- Counterexample to C5 as stated: the overrides are not case-insensitive
(`Id` stays `Id`, not `ID`), and other segments are not lower-cased after
the first letter (`nAME` becomes `NAME`, not `Name`). -/
theorem C5_counterexample :
    nameFromStrings ["Id"] = "Id" ∧ ("Id" : String) ≠ "ID" ∧
    nameFromStrings ["nAME"] = "NAME" ∧ ("NAME" : String) ≠ "Name" :=
  ⟨rfl, by decide, rfl, by decide⟩

/-! ## Claim C7 -/

/-- C7: in an object's validate function, the presence checks for the
required names come first — in `Required` declaration order, concatenated
by `requiredChecksLoop` — and every nested-validation call comes after all
of them; for the `user` fixture the emitted function checks `id` and emits
nothing for `name`. -/
theorem C7_checks_before_calls (idx : Index) (s : Schema)
    (hobj : s.type_ = "object") :
    (∀ checks calls,
      generateRequiredValidationCheck idx s = .ok checks →
      validateCallsLoop idx s.properties (sortedMapKeys s.properties) ":" =
        .ok calls →
      generateGoTypeValidateFunc s idx = .ok
        ("func (t *" ++ s.name ++ ") Validate() error \x7b\n" ++
         (if checks = "" then "" else "\t" ++ checks ++ "\n") ++
         calls ++ "\treturn nil\n\x7d\n"))
  ∧ ((∀ p ∈ s.required, ∃ rs,
        idxFind idx (s.pointer ++ "/properties/" ++ p) = Option.some rs) →
      s.required ≠ [] →
      generateRequiredValidationCheck idx s = .ok (strConcat
        (s.required.map fun p =>
          match idxFind idx (s.pointer ++ "/properties/" ++ p) with
          | Option.some rs => requiredCheckSrc rs.name s.jsonName p
          | Option.none => "")))
  ∧ (idxFind (Parse userDocTree) "#/definitions/user" =
        Option.some userParsed ∧
      generateGoTypeValidateFunc userParsed (Parse userDocTree) = .ok
        ("func (t *User) Validate() error \x7b\n\tif t.ID == nil \x7b\n\treturn errors.New(\"invalid user: missing id\")\n\x7d\n\n\treturn nil\n\x7d\n")) := by
  refine ⟨?_, ?_, ⟨rfl, rfl⟩⟩
  · intro checks calls hchecks hcalls
    simp only [generateGoTypeValidateFunc, hobj, hchecks, hcalls, exc_bind_ok]
  · intro h hne
    simp only [generateRequiredValidationCheck, if_neg hne]
    exact requiredChecksLoop_all_present idx s s.required h

/-- Witness for C7 at the parsed `user` fixture node. -/
theorem C7_witness :
    generateGoTypeValidateFunc userParsed (Parse userDocTree) = .ok
      ("func (t *User) Validate() error \x7b\n\tif t.ID == nil \x7b\n\treturn errors.New(\"invalid user: missing id\")\n\x7d\n\n\treturn nil\n\x7d\n") := by
  have h := (C7_checks_before_calls (Parse userDocTree) userParsed rfl).1
    ("if t.ID == nil \x7b\n\treturn errors.New(\"invalid user: missing id\")\n\x7d\n")
    "" rfl rfl
  simpa using h

/-! ## Claim C2 -/

/-- `strListLt` is asymmetric. -/
theorem strListLt_asymm :
    ∀ a b : List Char, strListLt a b = true → strListLt b a = false := by
  intro a
  induction a with
  | nil =>
    intro b h
    cases b with
    | nil => exact absurd h (by decide)
    | cons x xs => rfl
  | cons c cs ih =>
    intro b h
    cases b with
    | nil => exact absurd h (by simp [strListLt])
    | cons x xs =>
      simp only [strListLt, Bool.or_eq_true, Bool.and_eq_true,
        decide_eq_true_eq] at h
      simp only [strListLt, Bool.or_eq_false_iff, Bool.and_eq_false_iff,
        decide_eq_false_iff_not]
      rcases h with hlt | ⟨heq, hrec⟩
      · exact ⟨by omega, Or.inl (by omega)⟩
      · exact ⟨by omega, Or.inr (ih xs hrec)⟩

/-- `strListLt` is total on distinct lists. -/
theorem strListLt_total_ne :
    ∀ a b : List Char, strListLt a b = false → a ≠ b →
      strListLt b a = true := by
  intro a
  induction a with
  | nil =>
    intro b h hne
    cases b with
    | nil => exact absurd rfl hne
    | cons x xs => exact absurd h (by simp [strListLt])
  | cons c cs ih =>
    intro b h hne
    cases b with
    | nil => rfl
    | cons x xs =>
      simp only [strListLt, Bool.or_eq_false_iff, Bool.and_eq_false_iff,
        decide_eq_false_iff_not] at h
      simp only [strListLt, Bool.or_eq_true, Bool.and_eq_true,
        decide_eq_true_eq]
      obtain ⟨hnlt, hrest⟩ := h
      by_cases hcc : c.toNat = x.toNat
      · have hc : c = x := by
          have h' := congrArg Char.ofNat hcc
          rwa [Char.ofNat_toNat, Char.ofNat_toNat] at h'
        subst hc
        rcases hrest with hne' | hrec
        · exact absurd rfl hne'
        · refine Or.inr ⟨rfl, ih xs hrec ?_⟩
          intro he
          exact hne (by rw [he])
      · exact Or.inl (by omega)



/-- C2 (counterexample): two index nodes with the same `Name` admit two
different valid generation orders — `sort.Sort` has no pointer tie-break
and Go's map range order is randomized, so the claimed determinism fails
whenever names collide. -/
theorem C2_counterexample :
    (validKeyOrder [("#/definitions/a", sameA), ("#/definitions/b", sameB)]
      ["#/definitions/a", "#/definitions/b"])
  ∧ (validKeyOrder [("#/definitions/a", sameA), ("#/definitions/b", sameB)]
      ["#/definitions/b", "#/definitions/a"])
  ∧ (["#/definitions/a", "#/definitions/b"] : List String) ≠
      ["#/definitions/b", "#/definitions/a"] := by
  refine ⟨?_, ?_, by decide⟩
  · refine ⟨[sameA, sameB], ⟨List.Perm.refl _, ?_⟩, rfl⟩
    exact List.pairwise_pair.mpr (by decide)
  · refine ⟨[sameB, sameA], ⟨?_, ?_⟩, rfl⟩
    · exact List.Perm.swap _ _ _
    · exact List.pairwise_pair.mpr (by decide)

/-- C2 (amended): the traversal order of `sortedMapKeysbyName` is sorted by
`Name` only; it is deterministic and independent of the source document's
key order whenever the node names are pairwise distinct (there is no
pointer tie-break for equal names). -/
theorem C2_order_deterministic (idx₁ idx₂ : Index) (ks₁ ks₂ : List String)
    (hperm : idx₁.Perm idx₂)
    (hnd : ((idx₁.map Prod.snd).map Schema.name).Nodup)
    (h1 : validKeyOrder idx₁ ks₁) (h2 : validKeyOrder idx₂ ks₂) :
    ks₁ = ks₂ := by
  obtain ⟨out₁, ⟨hp₁, hs₁⟩, hk₁⟩ := h1
  obtain ⟨out₂, ⟨hp₂, hs₂⟩, hk₂⟩ := h2
  subst hk₁
  subst hk₂
  have hvals : (idx₁.map Prod.snd).Perm (idx₂.map Prod.snd) := hperm.map _
  have hoo : out₁.Perm out₂ := (hp₁.trans hvals).trans hp₂.symm
  have hnd₁ : (out₁.map Schema.name).Nodup :=
    ((hp₁.map Schema.name).symm.nodup_iff.mp hnd)
  have hnd₂ : (out₂.map Schema.name).Nodup :=
    ((hoo.map Schema.name).nodup_iff.mp hnd₁)
  have hstrict : ∀ (out : List Schema),
      out.Pairwise (fun a b => goStrLe a.name b.name = true) →
      (out.map Schema.name).Nodup →
      out.Pairwise (fun a b =>
        strListLt a.name.data b.name.data = true) := by
    intro out hle hnd'
    have hne : out.Pairwise (fun a b => a.name ≠ b.name) :=
      List.pairwise_map.mp hnd'
    refine (hle.and hne).imp ?_
    rintro a b ⟨hab, hne'⟩
    have hfalse : strListLt b.name.data a.name.data = false := by
      simpa [goStrLe, goStrLt] using hab
    refine strListLt_total_ne _ _ hfalse ?_
    intro he
    exact hne' (String.ext he).symm
  haveI : IsAntisymm Schema
      (fun a b => strListLt a.name.data b.name.data = true) := by
    constructor
    intro a b hab hba
    rw [strListLt_asymm _ _ hab] at hba
    exact absurd hba (by decide)
  have := List.eq_of_perm_of_sorted hoo
    (hstrict out₁ hs₁ hnd₁) (hstrict out₂ hs₂ hnd₂)
  rw [this]



/-- Witness for C2 (amended) on a two-node index with distinct names. -/
theorem C2_witness :
    validKeyOrder [("#/definitions/a", alphaNode), ("#/definitions/b", betaNode)]
      ["#/definitions/a", "#/definitions/b"] ∧
    (["#/definitions/a", "#/definitions/b"] : List String) =
      ["#/definitions/a", "#/definitions/b"] := by
  have hvko : validKeyOrder
      [("#/definitions/a", alphaNode), ("#/definitions/b", betaNode)]
      ["#/definitions/a", "#/definitions/b"] := by
    refine ⟨[alphaNode, betaNode], ⟨List.Perm.refl _, ?_⟩, rfl⟩
    exact List.pairwise_pair.mpr (by decide)
  refine ⟨hvko, ?_⟩
  exact C2_order_deterministic _ _ _ _ (List.Perm.refl _)
    (by decide) hvko hvko

/-! ## Claim C9 -/

/-- Index entries of a child list: exactly the entries of some child's
parse, addressed under the list's pointer parent. -/
theorem parseList_mem :
    ∀ (l : List (String × Schema)) (pre : String) (kv : String × Schema),
      kv ∈ (parseList l pre).2 ↔
        ∃ nm c, (nm, c) ∈ l ∧ kv ∈ (parseS c (pre ++ nm)).2 := by
  intro l
  induction l with
  | nil => simp [parseList]
  | cons hd tl ih =>
    obtain ⟨nm, c⟩ := hd
    intro pre kv
    simp only [parseList, List.mem_append, ih]
    constructor
    · rintro (h | ⟨nm', c', hmem, h⟩)
      · exact ⟨nm, c, List.mem_cons_self _ _, h⟩
      · exact ⟨nm', c', List.mem_cons_of_mem _ hmem, h⟩
    · rintro ⟨nm', c', hmem, h⟩
      rcases List.mem_cons.mp hmem with he | hm
      · rw [Prod.mk.injEq] at he
        obtain ⟨he1, he2⟩ := he
        subst he1
        subst he2
        exact Or.inl h
      · exact Or.inr ⟨nm', c', hm, h⟩

/-- A member of a child list is strictly smaller than the whole schema
node. -/
theorem sizeOf_child_lt (nm : String) (c : Schema)
    (ti de po pn na jn ty rf : String)
    (defs props : List (String × Schema)) (items : Option Schema)
    (req : List String)
    (h : (nm, c) ∈ defs ∨ (nm, c) ∈ props) :
    sizeOf c <
      sizeOf (Schema.mk ti de po pn na jn ty rf defs props items req) := by
  rcases h with h | h <;>
  · have h1 := List.sizeOf_lt_of_mem h
    simp only [Schema.mk.sizeOf_spec]
    simp only [Prod.mk.sizeOf_spec] at h1
    omega

/-- The `Items` child is strictly smaller than the whole schema node. -/
theorem sizeOf_items_lt (c : Schema)
    (ti de po pn na jn ty rf : String)
    (defs props : List (String × Schema)) (req : List String) :
    sizeOf c <
      sizeOf (Schema.mk ti de po pn na jn ty rf defs props
        (Option.some c) req) := by
  simp only [Schema.mk.sizeOf_spec, Option.some.sizeOf_spec]
  omega

/-- Round-trip identity, bounded form: every entry a parse inserts maps a
pointer key to a node whose `pointer` field is that key. -/
theorem parse_entry_ptr_bounded :
    ∀ (n : Nat) (s : Schema), sizeOf s ≤ n → ∀ (p : String),
      ∀ kv ∈ (parseS s p).2, kv.2.pointer = kv.1 := by
  intro n
  induction n with
  | zero =>
    intro s hs
    exfalso
    cases s
    simp only [Schema.mk.sizeOf_spec] at hs
    omega
  | succ n ih =>
    intro s hs p kv hkv
    cases s with
    | mk ti de po pn na jn ty rf defs props items req =>
      rw [parseS.eq_def] at hkv
      dsimp only [] at hkv
      by_cases hp : p = "#"
      · rw [if_pos hp] at hkv
        simp only [List.mem_append] at hkv
        rcases hkv with (hkv | hkv) | hkv
        · obtain ⟨nm, c, hmem, h⟩ := (parseList_mem defs _ kv).mp hkv
          refine ih c ?_ _ kv h
          have := sizeOf_child_lt nm c ti de po pn na jn ty rf defs props
            items req (Or.inl hmem)
          omega
        · obtain ⟨nm, c, hmem, h⟩ := (parseList_mem props _ kv).mp hkv
          refine ih c ?_ _ kv h
          have := sizeOf_child_lt nm c ti de po pn na jn ty rf defs props
            items req (Or.inr hmem)
          omega
        · cases items with
          | none => cases hkv
          | some c =>
            refine ih c ?_ _ kv hkv
            have := sizeOf_items_lt c ti de po pn na jn ty rf defs props req
            omega
      · rw [if_neg hp] at hkv
        simp only [List.mem_append] at hkv
        rcases hkv with ((hkv | hkv) | hkv) | hkv
        · obtain ⟨nm, c, hmem, h⟩ := (parseList_mem defs _ kv).mp hkv
          refine ih c ?_ _ kv h
          have := sizeOf_child_lt nm c ti de po pn na jn ty rf defs props
            items req (Or.inl hmem)
          omega
        · obtain ⟨nm, c, hmem, h⟩ := (parseList_mem props _ kv).mp hkv
          refine ih c ?_ _ kv h
          have := sizeOf_child_lt nm c ti de po pn na jn ty rf defs props
            items req (Or.inr hmem)
          omega
        · cases items with
          | none => cases hkv
          | some c =>
            refine ih c ?_ _ kv hkv
            have := sizeOf_items_lt c ti de po pn na jn ty rf defs props req
            omega
        · rw [List.mem_singleton] at hkv
          subst hkv
          rfl

/-- Bounded key-length growth: parsing under pointer `p` only inserts keys
at least as long as `p`. -/
theorem parse_key_len_bounded :
    ∀ (n : Nat) (s : Schema), sizeOf s ≤ n → ∀ (p : String),
      ∀ kv ∈ (parseS s p).2, p.length ≤ kv.1.length := by
  intro n
  induction n with
  | zero =>
    intro s hs
    exfalso
    cases s
    simp only [Schema.mk.sizeOf_spec] at hs
    omega
  | succ n ih =>
    intro s hs p kv hkv
    cases s with
    | mk ti de po pn na jn ty rf defs props items req =>
      rw [parseS.eq_def] at hkv
      dsimp only [] at hkv
      have hstep : ∀ (l : List (String × Schema)) (seg : String),
          kv ∈ (parseList l (p ++ seg)).2 →
          (∀ nm c, (nm, c) ∈ l → sizeOf c ≤ n) →
          p.length ≤ kv.1.length := by
        intro l seg hkvl hsz
        obtain ⟨nm, c, hmem, h⟩ := (parseList_mem l _ kv).mp hkvl
        have hlen := ih c (hsz nm c hmem) _ kv h
        rw [String.length_append, String.length_append] at hlen
        omega
      have hszd : ∀ nm c, (nm, c) ∈ defs → sizeOf c ≤ n := by
        intro nm c hmem
        have := sizeOf_child_lt nm c ti de po pn na jn ty rf defs props
          items req (Or.inl hmem)
        omega
      have hszp : ∀ nm c, (nm, c) ∈ props → sizeOf c ≤ n := by
        intro nm c hmem
        have := sizeOf_child_lt nm c ti de po pn na jn ty rf defs props
          items req (Or.inr hmem)
        omega
      by_cases hp : p = "#"
      · rw [if_pos hp] at hkv
        simp only [List.mem_append] at hkv
        rcases hkv with (hkv | hkv) | hkv
        · exact hstep defs _ hkv hszd
        · exact hstep props _ hkv hszp
        · cases items with
          | none => cases hkv
          | some c =>
            have hsz : sizeOf c ≤ n := by
              have := sizeOf_items_lt c ti de po pn na jn ty rf defs props req
              omega
            have hlen := ih c hsz _ kv hkv
            rw [String.length_append] at hlen
            omega
      · rw [if_neg hp] at hkv
        simp only [List.mem_append] at hkv
        rcases hkv with ((hkv | hkv) | hkv) | hkv
        · exact hstep defs _ hkv hszd
        · exact hstep props _ hkv hszp
        · cases items with
          | none => cases hkv
          | some c =>
            have hsz : sizeOf c ≤ n := by
              have := sizeOf_items_lt c ti de po pn na jn ty rf defs props req
              omega
            have hlen := ih c hsz _ kv hkv
            rw [String.length_append] at hlen
            omega
        · rw [List.mem_singleton] at hkv
          subst hkv
          exact le_refl _

/-- Every reachable node's assigned pointer is among the inserted keys. -/
theorem reach_mem_keys {s : Schema} {p q : String} (h : ReachPtr s p q) :
    q ∈ (parseS s p).2.map Prod.fst := by
  induction h with
  | self s p hne =>
    cases s with
    | mk ti de po pn na jn ty rf defs props items req =>
      rw [parseS.eq_def]
      dsimp only []
      rw [if_neg hne]
      simp
  | defn hmem hre ih =>
    rename_i s p nm c q
    cases s with
    | mk ti de po pn na jn ty rf defs props items req =>
      have hmem' : (nm, c) ∈ defs := hmem
      obtain ⟨kv, hkv, hfst⟩ := List.mem_map.mp ih
      have hinl : kv ∈ (parseList defs (p ++ "/definitions/")).2 :=
        (parseList_mem defs _ kv).mpr ⟨nm, c, hmem', hkv⟩
      rw [parseS.eq_def]
      dsimp only []
      by_cases hp : p = "#"
      · rw [if_pos hp]
        exact List.mem_map.mpr ⟨kv, by simp [hinl], hfst⟩
      · rw [if_neg hp]
        exact List.mem_map.mpr ⟨kv, by simp [hinl], hfst⟩
  | prop hmem hre ih =>
    rename_i s p nm c q
    cases s with
    | mk ti de po pn na jn ty rf defs props items req =>
      have hmem' : (nm, c) ∈ props := hmem
      obtain ⟨kv, hkv, hfst⟩ := List.mem_map.mp ih
      have hinl : kv ∈ (parseList props (p ++ "/properties/")).2 :=
        (parseList_mem props _ kv).mpr ⟨nm, c, hmem', hkv⟩
      rw [parseS.eq_def]
      dsimp only []
      by_cases hp : p = "#"
      · rw [if_pos hp]
        exact List.mem_map.mpr ⟨kv, by simp [hinl], hfst⟩
      · rw [if_neg hp]
        exact List.mem_map.mpr ⟨kv, by simp [hinl], hfst⟩
  | item hit hre ih =>
    rename_i s p c q
    cases s with
    | mk ti de po pn na jn ty rf defs props items req =>
      have hit' : items = Option.some c := hit
      subst hit'
      obtain ⟨kv, hkv, hfst⟩ := List.mem_map.mp ih
      rw [parseS.eq_def]
      dsimp only []
      by_cases hp : p = "#"
      · rw [if_pos hp]
        exact List.mem_map.mpr ⟨kv, by simp [hkv], hfst⟩
      · rw [if_neg hp]
        exact List.mem_map.mpr ⟨kv, by simp [hkv], hfst⟩

/-- C9: after a parse, (a) every index key equals the `pointer` field of
the node stored at it, (b) every node reachable from the root through
`definitions`, `properties` or `items` has its assigned pointer among the
keys, and (c) the document root `"#"` is never a key. -/
theorem C9_index_roundtrip (s : Schema) :
    (∀ kv ∈ Parse s, kv.2.pointer = kv.1)
  ∧ (∀ q, ReachPtr s "#" q → q ∈ (Parse s).map Prod.fst)
  ∧ "#" ∉ (Parse s).map Prod.fst := by
  refine ⟨?_, ?_, ?_⟩
  · exact parse_entry_ptr_bounded (sizeOf s) s (le_refl _) "#"
  · intro q h
    exact reach_mem_keys h
  · intro hmem
    obtain ⟨kv, hkv, hfst⟩ := List.mem_map.mp hmem
    have hkv' : kv ∈ (parseS s "#").2 := hkv
    cases s with
    | mk ti de po pn na jn ty rf defs props items req =>
      rw [parseS.eq_def] at hkv'
      dsimp only [] at hkv'
      rw [if_pos rfl] at hkv'
      simp only [List.mem_append] at hkv'
      have hmin : (7 : Nat) ≤ kv.1.length := by
        rcases hkv' with (h | h) | h
        · obtain ⟨nm, c, hmem', hh⟩ := (parseList_mem defs _ kv).mp h
          have := parse_key_len_bounded (sizeOf c) c (le_refl _) _ kv hh
          rw [String.length_append, String.length_append] at this
          have h14 : ("/definitions/" : String).length = 13 := by decide
          have h1 : ("#" : String).length = 1 := by decide
          omega
        · obtain ⟨nm, c, hmem', hh⟩ := (parseList_mem props _ kv).mp h
          have := parse_key_len_bounded (sizeOf c) c (le_refl _) _ kv hh
          rw [String.length_append, String.length_append] at this
          have h13 : ("/properties/" : String).length = 12 := by decide
          have h1 : ("#" : String).length = 1 := by decide
          omega
        · cases items with
          | none => cases h
          | some c =>
            have := parse_key_len_bounded (sizeOf c) c (le_refl _) _ kv h
            rw [String.length_append] at this
            have h6 : ("/items" : String).length = 6 := by decide
            have h1 : ("#" : String).length = 1 := by decide
            omega
      rw [hfst] at hmin
      have : ("#" : String).length = 1 := by decide
      omega

/-- Witness for C9: for the concrete `user` document, `#/definitions/user`
is reachable and hence a key, `"#"` is not a key, and the stored node's
pointer field equals the key. -/
theorem C9_witness :
    "#/definitions/user" ∈ (Parse userDocTree).map Prod.fst ∧
    "#" ∉ (Parse userDocTree).map Prod.fst := by
  constructor
  · refine (C9_index_roundtrip userDocTree).2.1 _ ?_
    refine @ReachPtr.defn userDocTree "#" "user" userDefRaw
      "#/definitions/user" ?_ (ReachPtr.self _ _ (by decide))
    exact List.mem_cons_self _ _
  · exact (C9_index_roundtrip userDocTree).2.2

end Jsonschema
